import Mathlib

/-!
Shallow embedding of the split-statistic layer of splitCustom.c.

Doubles are modelled as exact rationals in the accumulation phase and as
real numbers for the final square-root/guard phase; the unsigned-int count
tables are modelled as natural-number valued functions with 1-based
indices, exactly as the C code uses them.
-/

/-- C conversion of a double to a (signed) integer: truncation toward zero. -/
def truncInt (q : ℚ) : ℤ := if 0 ≤ q then ⌊q⌋ else ⌈q⌉

/-- C conversion of a nonnegative double to an unsigned int. -/
def qToUInt (q : ℚ) : ℕ := (truncInt q).toNat

/-- The C statement `v[k]++` on a count vector. -/
def bumpAt (f : ℕ → ℕ) (k : ℕ) : ℕ → ℕ := Function.update f k (f k + 1)

/-- The C statement `v[r][k]++` on a count matrix. -/
def bumpAt2 (f : ℕ → ℕ → ℕ) (r k : ℕ) : ℕ → ℕ → ℕ :=
  Function.update f r (bumpAt (f r) k)

/-- The arguments shared by the survival-family split functions:
`n`, `membership` (`true` = LEFT), `time`, `event`, `eventTypeSize`,
`eventTimeSize`, `eventTime`, all 1-based. -/
structure SplitInput where
  n : ℕ
  membership : ℕ → Bool
  time : ℕ → ℚ
  event : ℕ → ℚ
  eventTypeSize : ℕ
  eventTimeSize : ℕ
  eventTime : ℕ → ℚ

/-- The four count vectors of getCustomSplitStatisticSurvival. -/
structure SurvTables where
  parentEvent : ℕ → ℕ
  parentAtRisk : ℕ → ℕ
  leftEvent : ℕ → ℕ
  leftAtRisk : ℕ → ℕ

/-- All counts reset to zero, as done by the initialization loop. -/
def initSurvTables : SurvTables :=
  { parentEvent := fun _ => 0
    parentAtRisk := fun _ => 0
    leftEvent := fun _ => 0
    leftAtRisk := fun _ => 0 }

/-- One iteration of the decreasing sweep of getCustomSplitStatisticSurvival
in the branch `eventTime[k] <= time[i]`: the at-risk counts are always
bumped at `k`, the left ones only for a LEFT member, and the event counts
only when `eventTime[k] == time[i]` and `event[i] > 0`. -/
def survStep (d : SplitInput) (i k : ℕ) (t : SurvTables) : SurvTables :=
  { parentAtRisk := bumpAt t.parentAtRisk k
    leftAtRisk := if d.membership i then bumpAt t.leftAtRisk k else t.leftAtRisk
    parentEvent := if d.eventTime k = d.time i ∧ 0 < d.event i then
        bumpAt t.parentEvent k else t.parentEvent
    leftEvent := if (d.eventTime k = d.time i ∧ 0 < d.event i) ∧ d.membership i then
        bumpAt t.leftEvent k else t.leftEvent }

/-- The two-pointer sweep `while (i > 0 && k > 0)` of
getCustomSplitStatisticSurvival, with explicit fuel (the loop performs at
most `i + k` iterations, so any fuel of at least `i + k` is exact). -/
def survSweepAux (d : SplitInput) : ℕ → ℕ → ℕ → SurvTables → SurvTables
  | 0, _, _, t => t
  | fuel + 1, i, k, t =>
      if i = 0 ∨ k = 0 then t
      else if d.eventTime k ≤ d.time i then
        survSweepAux d fuel (i - 1) k (survStep d i k t)
      else
        survSweepAux d fuel i (k - 1) t

/-- The sweep as run by the C code: `i` starts at `n`, `k` at `eventTimeSize`. -/
def survSweep (d : SplitInput) : SurvTables :=
  survSweepAux d (d.n + d.eventTimeSize) d.n d.eventTimeSize initSurvTables

/-- The loop `for (k = M; k > 1; k--) a[k-1] = a[k] + a[k-1]`, unrolled by
the number `r` of remaining iterations: iteration at counter value `k`
updates cell `k-1` and continues at `k-1`. -/
def suffixRun : (ℕ → ℕ) → ℕ → ℕ → ℕ → ℕ
  | a, 0, _ => a
  | a, r + 1, k => suffixRun (Function.update a (k - 1) (a k + a (k - 1))) r (k - 1)

/-- The suffix-sum adjustment of an at-risk vector over slots `1..m`
("adjust the at risk counts to achieve the step function"). -/
def adjustAtRisk (a : ℕ → ℕ) (m : ℕ) : ℕ → ℕ := suffixRun a (m - 1) m

/-- Apply the suffix-sum adjustment to both at-risk vectors. -/
def survAdjust (t : SurvTables) (m : ℕ) : SurvTables :=
  { t with parentAtRisk := adjustAtRisk t.parentAtRisk m
           leftAtRisk := adjustAtRisk t.leftAtRisk m }

/-- The tables of getCustomSplitStatisticSurvival after the sweep and the
suffix-sum adjustment. -/
def survTablesOf (d : SplitInput) : SurvTables :=
  survAdjust (survSweep d) d.eventTimeSize

/-- Accumulated log-rank numerator of getCustomSplitStatisticSurvival
(before `fabs`): for each `k`,
`nodeLeftEvent[k] - (double)(nodeLeftAtRisk[k]*nodeParentEvent[k]) / nodeParentAtRisk[k]`. -/
def survDeltaNum (t : SurvTables) (m : ℕ) : ℚ :=
  ∑ k ∈ Finset.Icc 1 m,
    ((t.leftEvent k : ℚ) -
      ((t.leftAtRisk k * t.parentEvent k : ℕ) : ℚ) / (t.parentAtRisk k : ℚ))

/-- Accumulated log-rank denominator of getCustomSplitStatisticSurvival
(before `sqrt`), guarded by `nodeParentAtRisk[k] >= 2`. -/
def survDeltaDen (t : SurvTables) (m : ℕ) : ℚ :=
  ∑ k ∈ Finset.Icc 1 m,
    if 2 ≤ t.parentAtRisk k then
      ((t.leftAtRisk k : ℚ) / (t.parentAtRisk k : ℚ)) *
        (1 - (t.leftAtRisk k : ℚ) / (t.parentAtRisk k : ℚ)) *
        (((t.parentAtRisk k - t.parentEvent k : ℕ) : ℚ) /
          ((t.parentAtRisk k - 1 : ℕ) : ℚ)) *
        (t.parentEvent k : ℚ)
    else 0

/-- The final `fabs` / `sqrt` / near-zero-guard step shared by the survival
and competing-risk statistics. -/
noncomputable def finalDelta (num den : ℚ) : ℝ :=
  if Real.sqrt (den : ℝ) ≤ 1 / 10 ^ 9 then
    if |(num : ℝ)| ≤ 1 / 10 ^ 9 then 0
    else |(num : ℝ)| / Real.sqrt (den : ℝ)
  else |(num : ℝ)| / Real.sqrt (den : ℝ)

/-- getCustomSplitStatisticSurvival of splitCustom.c. -/
noncomputable def getCustomSplitStatisticSurvival (d : SplitInput) : ℝ :=
  finalDelta (survDeltaNum (survTablesOf d) d.eventTimeSize)
    (survDeltaDen (survTablesOf d) d.eventTimeSize)

/-- The count tables of getCustomSplitStatisticCompetingRisk that are ever
read: the shared vectors plus the cause-indexed event-count matrices.
(The allocated `nodeLeftEvent` vector is never incremented nor read by the
competing-risk code, so it is omitted.) -/
structure CRTables where
  parentEvent : ℕ → ℕ
  parentAtRisk : ℕ → ℕ
  leftAtRisk : ℕ → ℕ
  parentEventCR : ℕ → ℕ → ℕ
  leftEventCR : ℕ → ℕ → ℕ

/-- All competing-risk counts reset to zero. -/
def initCRTables : CRTables :=
  { parentEvent := fun _ => 0
    parentAtRisk := fun _ => 0
    leftAtRisk := fun _ => 0
    parentEventCR := fun _ _ => 0
    leftEventCR := fun _ _ => 0 }

/-- One iteration of the decreasing sweep of
getCustomSplitStatisticCompetingRisk in the branch
`eventTime[k] <= time[i]`; an event is recorded in the row
`(unsigned int) event[i]` of the cause-indexed matrices. -/
def crStep (d : SplitInput) (i k : ℕ) (t : CRTables) : CRTables :=
  { parentAtRisk := bumpAt t.parentAtRisk k
    leftAtRisk := if d.membership i then bumpAt t.leftAtRisk k else t.leftAtRisk
    parentEvent := if d.eventTime k = d.time i ∧ 0 < d.event i then
        bumpAt t.parentEvent k else t.parentEvent
    parentEventCR := if d.eventTime k = d.time i ∧ 0 < d.event i then
        bumpAt2 t.parentEventCR (qToUInt (d.event i)) k else t.parentEventCR
    leftEventCR := if (d.eventTime k = d.time i ∧ 0 < d.event i) ∧ d.membership i then
        bumpAt2 t.leftEventCR (qToUInt (d.event i)) k else t.leftEventCR }

/-- The two-pointer sweep of getCustomSplitStatisticCompetingRisk. -/
def crSweepAux (d : SplitInput) : ℕ → ℕ → ℕ → CRTables → CRTables
  | 0, _, _, t => t
  | fuel + 1, i, k, t =>
      if i = 0 ∨ k = 0 then t
      else if d.eventTime k ≤ d.time i then
        crSweepAux d fuel (i - 1) k (crStep d i k t)
      else
        crSweepAux d fuel i (k - 1) t

/-- The competing-risk sweep as run by the C code. -/
def crSweep (d : SplitInput) : CRTables :=
  crSweepAux d (d.n + d.eventTimeSize) d.n d.eventTimeSize initCRTables

/-- Apply the suffix-sum adjustment to both at-risk vectors. -/
def crAdjust (t : CRTables) (m : ℕ) : CRTables :=
  { t with parentAtRisk := adjustAtRisk t.parentAtRisk m
           leftAtRisk := adjustAtRisk t.leftAtRisk m }

/-- The tables of getCustomSplitStatisticCompetingRisk after the sweep and
the suffix-sum adjustment. -/
def crTablesOf (d : SplitInput) : CRTables :=
  crAdjust (crSweep d) d.eventTimeSize

/-- The cell `[j][k]` of an event-inclusive at-risk matrix: starting from
the adjusted at-risk count at `k`, the loops
`for (s = 1; s < k; s++) for (r = 1; r <= eventTypeSize; r++) if (j != r)`
add the cause-`r` event count at time `s`. -/
def crInclusive (atRisk : ℕ → ℕ) (eventCR : ℕ → ℕ → ℕ) (mt j k : ℕ) : ℕ :=
  (List.range' 1 (k - 1)).foldl
    (fun acc s =>
      (List.range' 1 mt).foldl
        (fun acc2 r => if j ≠ r then acc2 + eventCR r s else acc2) acc)
    (atRisk k)

/-- The matrix `nodeParentInclusiveAtRisk` built from the adjusted tables. -/
def crParentIncl (t : CRTables) (mt : ℕ) (j k : ℕ) : ℕ :=
  crInclusive t.parentAtRisk t.parentEventCR mt j k

/-- The matrix `nodeLeftInclusiveAtRisk` built from the adjusted tables. -/
def crLeftIncl (t : CRTables) (mt : ℕ) (j k : ℕ) : ℕ :=
  crInclusive t.leftAtRisk t.leftEventCR mt j k

/-- Accumulated numerator of getCustomSplitStatisticCompetingRisk: sum over
causes `j` of `deltaSubNum`, itself a sum over event times `k` of
`nodeLeftEventCR[j][k] - nodeParentEventCR[j][k] * ((double) nodeLeftInclusiveAtRisk[j][k] / nodeParentInclusiveAtRisk[j][k])`. -/
def crDeltaNum (t : CRTables) (mt m : ℕ) : ℚ :=
  ∑ j ∈ Finset.Icc 1 mt, ∑ k ∈ Finset.Icc 1 m,
    ((t.leftEventCR j k : ℚ) -
      (t.parentEventCR j k : ℚ) *
        ((crLeftIncl t mt j k : ℚ) / (crParentIncl t mt j k : ℚ)))

/-- Accumulated denominator of getCustomSplitStatisticCompetingRisk, with
the same `nodeParentAtRisk[k] >= 2` guard as the survival statistic. -/
def crDeltaDen (t : CRTables) (mt m : ℕ) : ℚ :=
  ∑ j ∈ Finset.Icc 1 mt, ∑ k ∈ Finset.Icc 1 m,
    if 2 ≤ t.parentAtRisk k then
      ((t.parentEventCR j k : ℚ) *
          ((crLeftIncl t mt j k : ℚ) / (crParentIncl t mt j k : ℚ))) *
        (1 - (crLeftIncl t mt j k : ℚ) / (crParentIncl t mt j k : ℚ)) *
        (((crParentIncl t mt j k - t.parentEventCR j k : ℕ) : ℚ) /
          ((crParentIncl t mt j k - 1 : ℕ) : ℚ))
    else 0

/-- getCustomSplitStatisticCompetingRisk of splitCustom.c. -/
noncomputable def getCustomSplitStatisticCompetingRisk (d : SplitInput) : ℝ :=
  finalDelta (crDeltaNum (crTablesOf d) d.eventTypeSize d.eventTimeSize)
    (crDeltaDen (crTablesOf d) d.eventTypeSize d.eventTimeSize)

/-- getCustomSplitStatisticMultivariateRegression of splitCustom.c:
`sumLeft` and `sumRght` accumulate `response[i] - mean` over the members of
each daughter, and the result is
`sumLeft^2/(leftSize*variance) + sumRght^2/(rghtSize*variance)`. -/
def getCustomSplitStatisticMultivariateRegression (n : ℕ) (membership : ℕ → Bool)
    (response : ℕ → ℚ) (mean variance : ℚ) : ℚ :=
  (∑ i ∈ (Finset.Icc 1 n).filter (fun i => membership i), (response i - mean)) ^ 2 /
      ((((Finset.Icc 1 n).filter (fun i => membership i)).card : ℚ) * variance) +
    (∑ i ∈ (Finset.Icc 1 n).filter (fun i => ¬ membership i), (response i - mean)) ^ 2 /
      ((((Finset.Icc 1 n).filter (fun i => ¬ membership i)).card : ℚ) * variance)

/-- The class-count cell `classProp[(unsigned int) response[i]]++` of the
classification statistic, accumulated over one daughter (`side = true` for
the LEFT counts). -/
def classProp (n : ℕ) (membership : ℕ → Bool) (response : ℕ → ℚ) (side : Bool)
    (c : ℕ) : ℕ :=
  (((Finset.Icc 1 n).filter
    (fun i => membership i = side ∧ qToUInt (response i) = c))).card

/-- getCustomSplitStatisticMultivariateClassification of splitCustom.c:
per-class squared counts summed over classes `1..maxLevel`, each daughter
sum divided by the daughter size. -/
def getCustomSplitStatisticMultivariateClassification (n : ℕ)
    (membership : ℕ → Bool) (response : ℕ → ℚ) (maxLevel : ℕ) : ℚ :=
  (∑ p ∈ Finset.Icc 1 maxLevel, ((classProp n membership response true p : ℚ)) ^ 2) /
      (((Finset.Icc 1 n).filter (fun i => membership i)).card : ℚ) +
    (∑ p ∈ Finset.Icc 1 maxLevel, ((classProp n membership response false p : ℚ)) ^ 2) /
      (((Finset.Icc 1 n).filter (fun i => ¬ membership i)).card : ℚ)

/-- `dimX = feature[featureCount][1]` of ccaSplitAbsoluteDifference: the
double stored in the last feature column at observation 1, converted to
int. -/
def ccaDimX (feature : ℕ → ℕ → ℚ) (featureCount : ℕ) : ℤ :=
  truncInt (feature featureCount 1)

/-- `dimY = featureCount - dimX - 1` of ccaSplitAbsoluteDifference. -/
def ccaDimY (feature : ℕ → ℕ → ℚ) (featureCount : ℕ) : ℤ :=
  (featureCount : ℤ) - ccaDimX feature featureCount - 1

/-- The feature columns `col = 1..dimX` copied into a daughter X block. -/
def ccaXCols (feature : ℕ → ℕ → ℚ) (featureCount : ℕ) : Finset ℤ :=
  Finset.Icc 1 (ccaDimX feature featureCount)

/-- The feature columns `col = dimX+1..dimX+dimY` copied into a daughter Y
block. -/
def ccaYCols (feature : ℕ → ℕ → ℚ) (featureCount : ℕ) : Finset ℤ :=
  Finset.Icc (ccaDimX feature featureCount + 1)
    (ccaDimX feature featureCount + ccaDimY feature featureCount)

/-- The observation indices of one daughter in increasing order (the order
in which the staging loop `for (i = 1; i <= n; i++)` appends rows);
`side = true` selects the LEFT daughter. -/
def daughterObs (n : ℕ) (membership : ℕ → Bool) (side : Bool) : List ℕ :=
  (List.range' 1 n).filter (fun i => membership i = side)

/-- The staged X block of one daughter: buffer cell `[row][c]` holds
`feature[c+1][i]` for the daughter's `row`-th observation `i`. -/
def ccaStageX (feature : ℕ → ℕ → ℚ) (obs : List ℕ) (row c : ℕ) : ℚ :=
  feature (c + 1) (obs.getD row 0)

/-- The staged Y block of one daughter: buffer cell `[row][c]` holds
`feature[dimX+1+c][i]` for the daughter's `row`-th observation `i`. -/
def ccaStageY (feature : ℕ → ℕ → ℚ) (dimX : ℤ) (obs : List ℕ) (row c : ℕ) : ℚ :=
  feature (dimX + 1 + c).toNat (obs.getD row 0)

/-- ccaSplitAbsoluteDifference of splitCustom.c, with the dense
linear-algebra pipeline (QR, orthogonal completion, product, SVD)
abstracted as the capability `ccaCor`, which maps a daughter's staged X
block, staged Y block and row count to the canonical correlation the
backend reports.  The two guards and the final
`sqrt(leftSize*rghtSize) * fabs(ccaCorLeft - ccaCorRight)` are the code's. -/
noncomputable def ccaSplitAbsoluteDifference
    (ccaCor : (ℕ → ℕ → ℚ) → (ℕ → ℕ → ℚ) → ℕ → ℝ)
    (n : ℕ) (membership : ℕ → Bool) (feature : ℕ → ℕ → ℚ) (featureCount : ℕ) : ℝ :=
  if 0 < ccaDimX feature featureCount ∧ 0 < ccaDimY feature featureCount then
    if ccaDimX feature featureCount + ccaDimY feature featureCount <
          ((daughterObs n membership true).length : ℤ) ∧
        ccaDimX feature featureCount + ccaDimY feature featureCount <
          ((daughterObs n membership false).length : ℤ) then
      Real.sqrt (((daughterObs n membership true).length : ℝ) *
          ((daughterObs n membership false).length : ℝ)) *
        |ccaCor (ccaStageX feature (daughterObs n membership true))
            (ccaStageY feature (ccaDimX feature featureCount)
              (daughterObs n membership true))
            (daughterObs n membership true).length -
          ccaCor (ccaStageX feature (daughterObs n membership false))
            (ccaStageY feature (ccaDimX feature featureCount)
              (daughterObs n membership false))
            (daughterObs n membership false).length|
    else 0
  else 0

/-- The end-to-end example of the specification: `n = 4`,
`time = [1,2,3,4]`, `event = [1,0,1,1]`, `membership = [L,R,L,R]`,
`eventTypeSize = 1`, `eventTime = [1,3,4]` (with index 0 a dead sentinel). -/
def exInput : SplitInput :=
  { n := 4
    membership := fun i => i % 2 == 1
    time := fun i => ([0, 1, 2, 3, 4] : List ℚ).getD i 0
    event := fun i => ([0, 1, 0, 1, 1] : List ℚ).getD i 0
    eventTypeSize := 1
    eventTimeSize := 3
    eventTime := fun k => ([0, 1, 3, 4] : List ℚ).getD k 0 }

/-- A perfectly separated two-class example: observations 1 and 2 are LEFT. -/
def exMemC : ℕ → Bool := fun i => i == 1 || i == 2

/-- Class labels for the perfectly separated example: 1 on LEFT, 2 on RIGHT. -/
def exRespC : ℕ → ℚ := fun i => if i == 1 || i == 2 then 1 else 2

theorem suffixRun_apply_of_le {a : ℕ → ℕ} {r k idx : ℕ} (hr : r ≤ k - 1)
    (hidx : k ≤ idx) : suffixRun a r k idx = a idx := by
  induction r generalizing a k with
  | zero => rfl
  | succ r ih =>
      rw [suffixRun]
      rw [ih (by omega) (by omega)]
      exact Function.update_noteq (by omega) _ _

theorem suffixRun_apply {a : ℕ → ℕ} {r k idx : ℕ} (hr : r ≤ k - 1)
    (hlo : k - r ≤ idx) (hhi : idx ≤ k) :
    suffixRun a r k idx = ∑ j ∈ Finset.Icc idx k, a j := by
  induction r generalizing a k with
  | zero =>
      have : idx = k := by omega
      subst this
      rw [suffixRun, Finset.Icc_self, Finset.sum_singleton]
  | succ r ih =>
      rw [suffixRun]
      rcases Nat.lt_or_ge idx k with hlt | hge
      · obtain ⟨K, rfl⟩ : ∃ K, k = K + 2 := ⟨k - 2, by omega⟩
        rw [show K + 2 - 1 = K + 1 from rfl]
        rw [ih (by omega) (by omega) (by omega)]
        have hmem : K + 1 ∈ Finset.Icc idx (K + 1) := by
          simp only [Finset.mem_Icc]; omega
        rw [Finset.sum_update_of_mem hmem]
        have h1 : Finset.Icc idx (K + 1) \ {K + 1} = Finset.Ico idx (K + 1) := by
          rw [Finset.sdiff_singleton_eq_erase, Finset.Icc_erase_right]
        have e1 : ∑ j ∈ Finset.Icc idx (K + 2), a j =
            ∑ j ∈ Finset.Ico idx (K + 1), a j + a (K + 1) + a (K + 2) := by
          rw [show Finset.Icc idx (K + 2) = Finset.Ico idx (K + 3) from
            (Nat.Ico_succ_right idx (K + 2)).symm]
          rw [Finset.sum_Ico_succ_top (show idx ≤ K + 2 by omega)]
          rw [Finset.sum_Ico_succ_top (show idx ≤ K + 1 by omega)]
        rw [h1, e1]
        omega
      · have : idx = k := by omega
        subst this
        rw [suffixRun_apply_of_le (by omega) (by omega)]
        rw [Function.update_noteq (by omega), Finset.Icc_self, Finset.sum_singleton]

theorem adjustAtRisk_apply {a : ℕ → ℕ} {m idx : ℕ} (h1 : 1 ≤ idx) (h2 : idx ≤ m) :
    adjustAtRisk a m idx = ∑ j ∈ Finset.Icc idx m, a j := by
  unfold adjustAtRisk
  exact suffixRun_apply (by omega) (by omega) (by omega)

theorem sum_bumpAt_of_mem {s : Finset ℕ} {k : ℕ} (a : ℕ → ℕ) (h : k ∈ s) :
    ∑ j ∈ s, bumpAt a k j = (∑ j ∈ s, a j) + 1 := by
  unfold bumpAt
  rw [Finset.sum_update_of_mem h]
  rw [Finset.sdiff_singleton_eq_erase]
  have := Finset.add_sum_erase s a h
  omega

theorem sum_bumpAt_of_not_mem {s : Finset ℕ} {k : ℕ} (a : ℕ → ℕ) (h : k ∉ s) :
    ∑ j ∈ s, bumpAt a k j = ∑ j ∈ s, a j := by
  refine Finset.sum_congr rfl fun x hx => ?_
  unfold bumpAt
  have hxk : x ≠ k := by rintro rfl; exact h hx
  exact Function.update_noteq hxk _ _

theorem survStep_parentAtRisk (d : SplitInput) (i k : ℕ) (t : SurvTables) :
    (survStep d i k t).parentAtRisk = bumpAt t.parentAtRisk k := rfl

theorem survStep_leftAtRisk (d : SplitInput) (i k : ℕ) (t : SurvTables) :
    (survStep d i k t).leftAtRisk =
      if d.membership i then bumpAt t.leftAtRisk k else t.leftAtRisk := rfl

theorem survSweepAux_char (d : SplitInput)
    (hsort : ∀ i j, 1 ≤ i → i ≤ j → j ≤ d.n → d.time i ≤ d.time j)
    (het : ∀ a b, 1 ≤ a → a ≤ b → b ≤ d.eventTimeSize → d.eventTime a ≤ d.eventTime b) :
    ∀ fuel i k t, i + k ≤ fuel → i ≤ d.n → k ≤ d.eventTimeSize →
      (∀ q, 1 ≤ q → q ≤ d.eventTimeSize →
        (∑ j ∈ Finset.Icc q d.eventTimeSize, t.parentAtRisk j) =
          ((Finset.Icc (i + 1) d.n).filter (fun x => d.eventTime q ≤ d.time x)).card ∧
        (∑ j ∈ Finset.Icc q d.eventTimeSize, t.leftAtRisk j) =
          ((Finset.Icc (i + 1) d.n).filter
            (fun x => d.eventTime q ≤ d.time x ∧ d.membership x = true)).card) →
      (1 ≤ i → ∀ q, k < q → q ≤ d.eventTimeSize → d.time i < d.eventTime q) →
      ∀ q, 1 ≤ q → q ≤ d.eventTimeSize →
        (∑ j ∈ Finset.Icc q d.eventTimeSize,
            (survSweepAux d fuel i k t).parentAtRisk j) =
          ((Finset.Icc 1 d.n).filter (fun x => d.eventTime q ≤ d.time x)).card ∧
        (∑ j ∈ Finset.Icc q d.eventTimeSize,
            (survSweepAux d fuel i k t).leftAtRisk j) =
          ((Finset.Icc 1 d.n).filter
            (fun x => d.eventTime q ≤ d.time x ∧ d.membership x = true)).card := by
  intro fuel
  induction fuel with
  | zero =>
      intro i k t hfuel hi hk hinv hpc q hq1 hq2
      have hi0 : i = 0 := by omega
      subst hi0
      exact hinv q hq1 hq2
  | succ fuel ih =>
      intro i k t hfuel hi hk hinv hpc q hq1 hq2
      rw [survSweepAux]
      by_cases hik : i = 0 ∨ k = 0
      · rw [if_pos hik]
        rcases hik with hi0 | hk0
        · subst hi0; exact hinv q hq1 hq2
        · subst hk0
          have key : ∀ x, x ∈ Finset.Icc 1 d.n → d.eventTime q ≤ d.time x →
              x ∈ Finset.Icc (i + 1) d.n := by
            intro x hx hqt
            simp only [Finset.mem_Icc] at hx ⊢
            by_contra hcon
            push_neg at hcon
            have hxi : x ≤ i := by omega
            have h1 : d.time x ≤ d.time i := hsort x i (by omega) (by omega) (by omega)
            have h2 : d.time i < d.eventTime q := hpc (by omega) q (by omega) hq2
            linarith
          have hsub : Finset.Icc (i + 1) d.n ⊆ Finset.Icc 1 d.n := by
            apply Finset.Icc_subset_Icc_left; omega
          have hp : (Finset.Icc 1 d.n).filter (fun x => d.eventTime q ≤ d.time x) =
              (Finset.Icc (i + 1) d.n).filter (fun x => d.eventTime q ≤ d.time x) := by
            apply Finset.ext
            intro x
            simp only [Finset.mem_filter]
            exact ⟨fun ⟨hx, hpx⟩ => ⟨key x hx hpx, hpx⟩, fun ⟨hx, hpx⟩ => ⟨hsub hx, hpx⟩⟩
          have hl : (Finset.Icc 1 d.n).filter
                (fun x => d.eventTime q ≤ d.time x ∧ d.membership x = true) =
              (Finset.Icc (i + 1) d.n).filter
                (fun x => d.eventTime q ≤ d.time x ∧ d.membership x = true) := by
            apply Finset.ext
            intro x
            simp only [Finset.mem_filter]
            exact ⟨fun ⟨hx, hpx⟩ => ⟨key x hx hpx.1, hpx⟩, fun ⟨hx, hpx⟩ => ⟨hsub hx, hpx⟩⟩
          rw [hp, hl]
          exact hinv q hq1 hq2
      · push_neg at hik
        obtain ⟨hi1, hk1⟩ := hik
        rw [if_neg (by omega : ¬ (i = 0 ∨ k = 0))]
        by_cases hbr : d.eventTime k ≤ d.time i
        · rw [if_pos hbr]
          refine ih (i - 1) k (survStep d i k t) (by omega) (by omega) hk ?_ ?_ q hq1 hq2
          · -- the invariant for the new state
            intro q' hq1' hq2'
            have hiff : q' ≤ k ↔ d.eventTime q' ≤ d.time i := by
              constructor
              · intro hqk
                exact le_trans (het q' k hq1' hqk hk) hbr
              · intro hqt
                by_contra hcon
                push_neg at hcon
                have := hpc (by omega) q' hcon hq2'
                linarith
            have hIcc : Finset.Icc (i - 1 + 1) d.n = insert i (Finset.Icc (i + 1) d.n) := by
              rw [show i - 1 + 1 = i by omega]
              rw [Nat.Icc_succ_left, Finset.Ioc_insert_left (by omega)]
            have hnotmem : i ∉ Finset.Icc (i + 1) d.n := by
              simp only [Finset.mem_Icc]; omega
            constructor
            · rw [survStep_parentAtRisk]
              rw [hIcc, Finset.filter_insert]
              by_cases hqk : q' ≤ k
              · have hkmem : k ∈ Finset.Icc q' d.eventTimeSize := by
                  simp only [Finset.mem_Icc]; omega
                rw [sum_bumpAt_of_mem _ hkmem, (hinv q' hq1' hq2').1]
                rw [if_pos (hiff.mp hqk)]
                rw [Finset.card_insert_of_not_mem
                  (fun hmem => hnotmem (Finset.mem_of_mem_filter i hmem))]
              · have hknot : k ∉ Finset.Icc q' d.eventTimeSize := by
                  simp only [Finset.mem_Icc]; omega
                rw [sum_bumpAt_of_not_mem _ hknot, (hinv q' hq1' hq2').1]
                rw [if_neg (fun hqt => hqk (by
                  by_contra hcon
                  push_neg at hcon
                  have := hpc (by omega) q' hcon hq2'
                  linarith))]
            · rw [survStep_leftAtRisk]
              rw [hIcc, Finset.filter_insert]
              by_cases hmemb : d.membership i
              · rw [if_pos hmemb]
                by_cases hqk : q' ≤ k
                · have hkmem : k ∈ Finset.Icc q' d.eventTimeSize := by
                    simp only [Finset.mem_Icc]; omega
                  rw [sum_bumpAt_of_mem _ hkmem, (hinv q' hq1' hq2').2]
                  rw [if_pos ⟨hiff.mp hqk, hmemb⟩]
                  rw [Finset.card_insert_of_not_mem
                    (fun hmem => hnotmem (Finset.mem_of_mem_filter i hmem))]
                · have hknot : k ∉ Finset.Icc q' d.eventTimeSize := by
                    simp only [Finset.mem_Icc]; omega
                  rw [sum_bumpAt_of_not_mem _ hknot, (hinv q' hq1' hq2').2]
                  rw [if_neg (fun hpi => hqk (by
                    by_contra hcon
                    push_neg at hcon
                    have := hpc (by omega) q' hcon hq2'
                    have := hpi.1
                    linarith))]
              · rw [if_neg hmemb]
                rw [(hinv q' hq1' hq2').2]
                rw [if_neg (fun hpi => hmemb hpi.2)]
          · -- the pointer condition for the new state
            intro hi1' q' hkq' hq'm
            have h1 : d.time (i - 1) ≤ d.time i := hsort (i - 1) i (by omega) (by omega) (by omega)
            have h2 : d.time i < d.eventTime q' := hpc (by omega) q' hkq' hq'm
            linarith
        · rw [if_neg hbr]
          refine ih i (k - 1) t (by omega) hi (by omega) hinv ?_ q hq1 hq2
          intro hi1' q' hkq' hq'm
          rcases Nat.lt_or_ge k q' with hlt | hge
          · exact hpc (by omega) q' hlt hq'm
          · have hqk : q' = k := by omega
            subst hqk
            exact lt_of_not_le hbr

theorem bumpAt_apply (f : ℕ → ℕ) (k j : ℕ) :
    bumpAt f k j = if j = k then f k + 1 else f j := by
  unfold bumpAt
  exact Function.update_apply f k (f k + 1) j

theorem survTablesOf_atRisk_char (d : SplitInput)
    (hsort : ∀ i ∈ Finset.Icc 1 d.n, ∀ j ∈ Finset.Icc 1 d.n, i ≤ j → d.time i ≤ d.time j)
    (het : ∀ a ∈ Finset.Icc 1 d.eventTimeSize, ∀ b ∈ Finset.Icc 1 d.eventTimeSize,
      a < b → d.eventTime a < d.eventTime b)
    (k : ℕ) (hk1 : 1 ≤ k) (hk2 : k ≤ d.eventTimeSize) :
    (survTablesOf d).parentAtRisk k =
      ((Finset.Icc 1 d.n).filter (fun x => d.eventTime k ≤ d.time x)).card ∧
    (survTablesOf d).leftAtRisk k =
      ((Finset.Icc 1 d.n).filter
        (fun x => d.eventTime k ≤ d.time x ∧ d.membership x = true)).card := by
  have hsort' : ∀ i j, 1 ≤ i → i ≤ j → j ≤ d.n → d.time i ≤ d.time j := by
    intro i j h1 h2 h3
    exact hsort i (by simp only [Finset.mem_Icc]; omega) j
      (by simp only [Finset.mem_Icc]; omega) h2
  have het' : ∀ a b, 1 ≤ a → a ≤ b → b ≤ d.eventTimeSize →
      d.eventTime a ≤ d.eventTime b := by
    intro a b h1 h2 h3
    rcases eq_or_lt_of_le h2 with rfl | hlt
    · exact le_refl _
    · exact (het a (by simp only [Finset.mem_Icc]; omega) b
        (by simp only [Finset.mem_Icc]; omega) hlt).le
  have hempty : Finset.Icc (d.n + 1) d.n = (∅ : Finset ℕ) := by
    apply Finset.Icc_eq_empty; omega
  have hinv : ∀ q, 1 ≤ q → q ≤ d.eventTimeSize →
      (∑ j ∈ Finset.Icc q d.eventTimeSize, initSurvTables.parentAtRisk j) =
        ((Finset.Icc (d.n + 1) d.n).filter (fun x => d.eventTime q ≤ d.time x)).card ∧
      (∑ j ∈ Finset.Icc q d.eventTimeSize, initSurvTables.leftAtRisk j) =
        ((Finset.Icc (d.n + 1) d.n).filter
          (fun x => d.eventTime q ≤ d.time x ∧ d.membership x = true)).card := by
    intro q hq1 hq2
    rw [hempty]
    simp [initSurvTables]
  have hpc : 1 ≤ d.n → ∀ q, d.eventTimeSize < q → q ≤ d.eventTimeSize →
      d.time d.n < d.eventTime q := by
    intro _ q h1 h2
    omega
  have hchar := survSweepAux_char d hsort' het' (d.n + d.eventTimeSize) d.n
    d.eventTimeSize initSurvTables (le_refl _) (le_refl _) (le_refl _) hinv hpc
  constructor
  · have h1 : (survTablesOf d).parentAtRisk k =
        ∑ j ∈ Finset.Icc k d.eventTimeSize, (survSweep d).parentAtRisk j := by
      unfold survTablesOf survAdjust
      exact adjustAtRisk_apply hk1 hk2
    rw [h1]
    exact (hchar k hk1 hk2).1
  · have h1 : (survTablesOf d).leftAtRisk k =
        ∑ j ∈ Finset.Icc k d.eventTimeSize, (survSweep d).leftAtRisk j := by
      unfold survTablesOf survAdjust
      exact adjustAtRisk_apply hk1 hk2
    rw [h1]
    exact (hchar k hk1 hk2).2

theorem survSweepAux_left_le_parent (d : SplitInput) :
    ∀ fuel i k t, (∀ j, t.leftAtRisk j ≤ t.parentAtRisk j) →
      ∀ j, (survSweepAux d fuel i k t).leftAtRisk j ≤
        (survSweepAux d fuel i k t).parentAtRisk j := by
  intro fuel
  induction fuel with
  | zero => intro i k t h j; exact h j
  | succ fuel ih =>
      intro i k t h j
      rw [survSweepAux]
      by_cases hik : i = 0 ∨ k = 0
      · rw [if_pos hik]; exact h j
      · rw [if_neg hik]
        by_cases hbr : d.eventTime k ≤ d.time i
        · rw [if_pos hbr]
          refine ih _ _ _ ?_ j
          intro j'
          rw [survStep_parentAtRisk, survStep_leftAtRisk]
          by_cases hj : j' = k
          · subst hj
            by_cases hm : d.membership i
            · rw [if_pos hm, bumpAt_apply, bumpAt_apply, if_pos rfl, if_pos rfl]
              exact Nat.succ_le_succ (h j')
            · rw [if_neg hm, bumpAt_apply, if_pos rfl]
              exact le_trans (h j') (Nat.le_succ _)
          · by_cases hm : d.membership i
            · rw [if_pos hm, bumpAt_apply, bumpAt_apply, if_neg hj, if_neg hj]
              exact h j'
            · rw [if_neg hm, bumpAt_apply, if_neg hj]
              exact h j'
        · rw [if_neg hbr]
          exact ih _ _ _ h j

theorem crSweepAux_agree (d : SplitInput) :
    ∀ fuel i k (tc : CRTables) (ts : SurvTables),
      tc.parentAtRisk = ts.parentAtRisk → tc.leftAtRisk = ts.leftAtRisk →
      tc.parentEvent = ts.parentEvent →
      (crSweepAux d fuel i k tc).parentAtRisk =
          (survSweepAux d fuel i k ts).parentAtRisk ∧
        (crSweepAux d fuel i k tc).leftAtRisk =
          (survSweepAux d fuel i k ts).leftAtRisk ∧
        (crSweepAux d fuel i k tc).parentEvent =
          (survSweepAux d fuel i k ts).parentEvent := by
  intro fuel
  induction fuel with
  | zero => intro i k tc ts h1 h2 h3; exact ⟨h1, h2, h3⟩
  | succ fuel ih =>
      intro i k tc ts h1 h2 h3
      rw [crSweepAux, survSweepAux]
      by_cases hik : i = 0 ∨ k = 0
      · rw [if_pos hik, if_pos hik]; exact ⟨h1, h2, h3⟩
      · rw [if_neg hik, if_neg hik]
        by_cases hbr : d.eventTime k ≤ d.time i
        · rw [if_pos hbr, if_pos hbr]
          refine ih _ _ _ _ ?_ ?_ ?_
          · show bumpAt tc.parentAtRisk k = bumpAt ts.parentAtRisk k
            rw [h1]
          · show (if d.membership i then bumpAt tc.leftAtRisk k else tc.leftAtRisk) =
              (if d.membership i then bumpAt ts.leftAtRisk k else ts.leftAtRisk)
            rw [h2]
          · show (if d.eventTime k = d.time i ∧ 0 < d.event i then
                bumpAt tc.parentEvent k else tc.parentEvent) =
              (if d.eventTime k = d.time i ∧ 0 < d.event i then
                bumpAt ts.parentEvent k else ts.parentEvent)
            rw [h3]
        · rw [if_neg hbr, if_neg hbr]
          exact ih _ _ _ _ h1 h2 h3

theorem crSweepAux_eventCR_one (d : SplitInput)
    (hev : ∀ i ∈ Finset.Icc 1 d.n, d.event i = 0 ∨ d.event i = 1) :
    ∀ fuel i k (tc : CRTables) (ts : SurvTables), i ≤ d.n →
      tc.parentEventCR 1 = ts.parentEvent → tc.leftEventCR 1 = ts.leftEvent →
      (crSweepAux d fuel i k tc).parentEventCR 1 =
          (survSweepAux d fuel i k ts).parentEvent ∧
        (crSweepAux d fuel i k tc).leftEventCR 1 =
          (survSweepAux d fuel i k ts).leftEvent := by
  intro fuel
  induction fuel with
  | zero => intro i k tc ts hi h1 h2; exact ⟨h1, h2⟩
  | succ fuel ih =>
      intro i k tc ts hi h1 h2
      rw [crSweepAux, survSweepAux]
      by_cases hik : i = 0 ∨ k = 0
      · rw [if_pos hik, if_pos hik]; exact ⟨h1, h2⟩
      · rw [if_neg hik, if_neg hik]
        by_cases hbr : d.eventTime k ≤ d.time i
        · rw [if_pos hbr, if_pos hbr]
          refine ih _ _ _ _ (by omega) ?_ ?_
          · show (if d.eventTime k = d.time i ∧ 0 < d.event i then
                bumpAt2 tc.parentEventCR (qToUInt (d.event i)) k
              else tc.parentEventCR) 1 =
              (if d.eventTime k = d.time i ∧ 0 < d.event i then
                bumpAt ts.parentEvent k else ts.parentEvent)
            by_cases hcond : d.eventTime k = d.time i ∧ 0 < d.event i
            · rw [if_pos hcond, if_pos hcond]
              have hev1 : d.event i = 1 := by
                rcases hev i (by simp only [Finset.mem_Icc]; omega) with h0 | hone
                · exfalso; rw [h0] at hcond; exact lt_irrefl 0 hcond.2
                · exact hone
              have hq : qToUInt (d.event i) = 1 := by
                rw [hev1]
                norm_num [qToUInt, truncInt]
              rw [hq]
              unfold bumpAt2
              rw [Function.update_same, h1]
            · rw [if_neg hcond, if_neg hcond]; exact h1
          · show (if (d.eventTime k = d.time i ∧ 0 < d.event i) ∧ d.membership i then
                bumpAt2 tc.leftEventCR (qToUInt (d.event i)) k
              else tc.leftEventCR) 1 =
              (if (d.eventTime k = d.time i ∧ 0 < d.event i) ∧ d.membership i then
                bumpAt ts.leftEvent k else ts.leftEvent)
            by_cases hcond : (d.eventTime k = d.time i ∧ 0 < d.event i) ∧ d.membership i
            · rw [if_pos hcond, if_pos hcond]
              have hev1 : d.event i = 1 := by
                rcases hev i (by simp only [Finset.mem_Icc]; omega) with h0 | hone
                · exfalso; rw [h0] at hcond; exact lt_irrefl 0 hcond.1.2
                · exact hone
              have hq : qToUInt (d.event i) = 1 := by
                rw [hev1]
                norm_num [qToUInt, truncInt]
              rw [hq]
              unfold bumpAt2
              rw [Function.update_same, h2]
            · rw [if_neg hcond, if_neg hcond]; exact h2
        · rw [if_neg hbr, if_neg hbr]
          exact ih _ _ _ _ hi h1 h2

theorem crInclusive_inner_foldl (e : ℕ → ℕ → ℕ) (j s : ℕ) :
    ∀ (mt acc : ℕ),
      (List.range' 1 mt).foldl
        (fun acc2 r => if j ≠ r then acc2 + e r s else acc2) acc =
      acc + ∑ r ∈ Finset.Icc 1 mt, (if j ≠ r then e r s else 0) := by
  intro mt
  induction mt with
  | zero => intro acc; simp
  | succ mt ih =>
      intro acc
      rw [List.range'_concat, List.foldl_append, ih]
      rw [Finset.sum_Icc_succ_top (by omega)]
      simp only [List.foldl_cons, List.foldl_nil]
      rw [show 1 + 1 * mt = mt + 1 by omega]
      by_cases hj : j ≠ mt + 1
      · rw [if_pos hj, if_pos hj]
        omega
      · rw [if_neg hj, if_neg hj]
        omega

theorem crInclusive_eq_sum (atRisk : ℕ → ℕ) (e : ℕ → ℕ → ℕ) (mt j k : ℕ) :
    crInclusive atRisk e mt j k =
      atRisk k + ∑ s ∈ Finset.Icc 1 (k - 1), ∑ r ∈ Finset.Icc 1 mt,
        (if j ≠ r then e r s else 0) := by
  unfold crInclusive
  generalize k - 1 = K
  induction K generalizing atRisk with
  | zero => simp
  | succ K ih =>
      rw [List.range'_concat, List.foldl_append]
      rw [ih]
      simp only [List.foldl_cons, List.foldl_nil]
      rw [crInclusive_inner_foldl]
      rw [Finset.sum_Icc_succ_top (by omega : 1 ≤ K + 1)]
      have : 1 + 1 * K = K + 1 := by omega
      rw [this]
      omega

theorem crTablesOf_shared (d : SplitInput) :
    (crTablesOf d).parentAtRisk = (survTablesOf d).parentAtRisk ∧
      (crTablesOf d).leftAtRisk = (survTablesOf d).leftAtRisk ∧
      (crTablesOf d).parentEvent = (survTablesOf d).parentEvent := by
  have h := crSweepAux_agree d (d.n + d.eventTimeSize) d.n d.eventTimeSize
    initCRTables initSurvTables rfl rfl rfl
  unfold crTablesOf survTablesOf crAdjust survAdjust crSweep survSweep at *
  refine ⟨?_, ?_, ?_⟩
  · show adjustAtRisk _ _ = adjustAtRisk _ _
    rw [h.1]
  · show adjustAtRisk _ _ = adjustAtRisk _ _
    rw [h.2.1]
  · exact h.2.2

theorem crTablesOf_eventCR_one (d : SplitInput)
    (hev : ∀ i ∈ Finset.Icc 1 d.n, d.event i = 0 ∨ d.event i = 1) :
    (crTablesOf d).parentEventCR 1 = (survTablesOf d).parentEvent ∧
      (crTablesOf d).leftEventCR 1 = (survTablesOf d).leftEvent := by
  have h := crSweepAux_eventCR_one d hev (d.n + d.eventTimeSize) d.n d.eventTimeSize
    initCRTables initSurvTables (le_refl _) rfl rfl
  unfold crTablesOf survTablesOf crAdjust survAdjust crSweep survSweep at *
  exact h

theorem crParentIncl_one (t : CRTables) (k : ℕ) :
    crParentIncl t 1 1 k = t.parentAtRisk k ∧ crLeftIncl t 1 1 k = t.leftAtRisk k := by
  unfold crParentIncl crLeftIncl
  rw [crInclusive_eq_sum, crInclusive_eq_sum]
  constructor <;> simp

/-- Claim C5: in getCustomSplitStatisticSurvival, for every input satisfying
the survival preconditions, after the sweep and suffix-sum the at-risk
tables form non-increasing step functions dominating the left counts:
nodeParentAtRisk[k] is at least nodeParentAtRisk[k+1] for k in
[1, eventTimeSize-1], and nodeParentAtRisk[k] is at least
nodeLeftAtRisk[k], itself at least 0, for k in [1, eventTimeSize]. -/
theorem claim_C5 (d : SplitInput)
    (hsort : ∀ i ∈ Finset.Icc 1 d.n, ∀ j ∈ Finset.Icc 1 d.n, i ≤ j → d.time i ≤ d.time j)
    (het : ∀ a ∈ Finset.Icc 1 d.eventTimeSize, ∀ b ∈ Finset.Icc 1 d.eventTimeSize,
      a < b → d.eventTime a < d.eventTime b) :
    (∀ k ∈ Finset.Icc 1 (d.eventTimeSize - 1),
      (survTablesOf d).parentAtRisk (k + 1) ≤ (survTablesOf d).parentAtRisk k) ∧
    (∀ k ∈ Finset.Icc 1 d.eventTimeSize,
      (survTablesOf d).leftAtRisk k ≤ (survTablesOf d).parentAtRisk k ∧
        0 ≤ (survTablesOf d).leftAtRisk k) := by
  constructor
  · intro k hk
    simp only [Finset.mem_Icc] at hk
    have e1 : (survTablesOf d).parentAtRisk k =
        ∑ j ∈ Finset.Icc k d.eventTimeSize, (survSweep d).parentAtRisk j := by
      unfold survTablesOf survAdjust
      exact adjustAtRisk_apply (by omega) (by omega)
    have e2 : (survTablesOf d).parentAtRisk (k + 1) =
        ∑ j ∈ Finset.Icc (k + 1) d.eventTimeSize, (survSweep d).parentAtRisk j := by
      unfold survTablesOf survAdjust
      exact adjustAtRisk_apply (by omega) (by omega)
    rw [e1, e2]
    apply Finset.sum_le_sum_of_subset
    apply Finset.Icc_subset_Icc_left
    omega
  · intro k hk
    simp only [Finset.mem_Icc] at hk
    have e1 : (survTablesOf d).parentAtRisk k =
        ∑ j ∈ Finset.Icc k d.eventTimeSize, (survSweep d).parentAtRisk j := by
      unfold survTablesOf survAdjust
      exact adjustAtRisk_apply (by omega) (by omega)
    have e2 : (survTablesOf d).leftAtRisk k =
        ∑ j ∈ Finset.Icc k d.eventTimeSize, (survSweep d).leftAtRisk j := by
      unfold survTablesOf survAdjust
      exact adjustAtRisk_apply (by omega) (by omega)
    refine ⟨?_, Nat.zero_le _⟩
    rw [e1, e2]
    apply Finset.sum_le_sum
    intro j _
    exact survSweepAux_left_le_parent d (d.n + d.eventTimeSize) d.n d.eventTimeSize
      initSurvTables (fun _ => le_refl 0) j

/-- Claim C10: for every input satisfying the survival preconditions (time
sorted ascending, eventTime strictly increasing, every eventTime[k] an
observed death time), after the sweep and suffix-sum
nodeParentAtRisk[k] is at least 1 for every k in [1, eventTimeSize], so
the unguarded division in the log-rank numerator of
getCustomSplitStatisticSurvival never divides by zero; likewise in
getCustomSplitStatisticCompetingRisk nodeParentInclusiveAtRisk[j][k] is at
least nodeParentAtRisk[k], itself at least 1, so its numerator divisions
never divide by zero. -/
theorem claim_C10 (d : SplitInput)
    (hsort : ∀ i ∈ Finset.Icc 1 d.n, ∀ j ∈ Finset.Icc 1 d.n, i ≤ j → d.time i ≤ d.time j)
    (het : ∀ a ∈ Finset.Icc 1 d.eventTimeSize, ∀ b ∈ Finset.Icc 1 d.eventTimeSize,
      a < b → d.eventTime a < d.eventTime b)
    (hcov : ∀ k ∈ Finset.Icc 1 d.eventTimeSize,
      ∃ i ∈ Finset.Icc 1 d.n, d.time i = d.eventTime k ∧ 0 < d.event i) :
    (∀ k ∈ Finset.Icc 1 d.eventTimeSize, 1 ≤ (survTablesOf d).parentAtRisk k) ∧
    (∀ j ∈ Finset.Icc 1 d.eventTypeSize, ∀ k ∈ Finset.Icc 1 d.eventTimeSize,
      1 ≤ (crTablesOf d).parentAtRisk k ∧
        (crTablesOf d).parentAtRisk k ≤ crParentIncl (crTablesOf d) d.eventTypeSize j k) := by
  have hmain : ∀ k ∈ Finset.Icc 1 d.eventTimeSize, 1 ≤ (survTablesOf d).parentAtRisk k := by
    intro k hk
    simp only [Finset.mem_Icc] at hk
    rw [(survTablesOf_atRisk_char d hsort het k (by omega) (by omega)).1]
    rw [Nat.one_le_iff_ne_zero, ← Nat.pos_iff_ne_zero, Finset.card_pos]
    obtain ⟨i, hi, hti, _⟩ := hcov k (by simp only [Finset.mem_Icc]; omega)
    exact ⟨i, Finset.mem_filter.mpr ⟨hi, le_of_eq hti.symm⟩⟩
  refine ⟨hmain, ?_⟩
  intro j hj k hk
  have hshared := (crTablesOf_shared d).1
  constructor
  · rw [hshared]
    exact hmain k hk
  · unfold crParentIncl
    rw [crInclusive_eq_sum]
    exact Nat.le_add_right _ _

/-- Claim C2: for every input with eventTypeSize = 1 satisfying the survival
preconditions (time sorted ascending, eventTime strictly increasing and
containing every observed death time; with a single cause the event labels
of the data model lie in the set of 0 and 1), the competing-risk statistic
getCustomSplitStatisticCompetingRisk returns the same value as
getCustomSplitStatisticSurvival on the same data. -/
theorem claim_C2 (d : SplitInput)
    (htype : d.eventTypeSize = 1)
    (hsort : ∀ i ∈ Finset.Icc 1 d.n, ∀ j ∈ Finset.Icc 1 d.n, i ≤ j → d.time i ≤ d.time j)
    (het : ∀ a ∈ Finset.Icc 1 d.eventTimeSize, ∀ b ∈ Finset.Icc 1 d.eventTimeSize,
      a < b → d.eventTime a < d.eventTime b)
    (hcov : ∀ k ∈ Finset.Icc 1 d.eventTimeSize,
      ∃ i ∈ Finset.Icc 1 d.n, d.time i = d.eventTime k ∧ 0 < d.event i)
    (hev : ∀ i ∈ Finset.Icc 1 d.n, d.event i = 0 ∨ d.event i = 1) :
    getCustomSplitStatisticCompetingRisk d = getCustomSplitStatisticSurvival d := by
  obtain ⟨hP, hL, _⟩ := crTablesOf_shared d
  obtain ⟨hCR, hLCR⟩ := crTablesOf_eventCR_one d hev
  unfold getCustomSplitStatisticCompetingRisk getCustomSplitStatisticSurvival
  rw [htype]
  have hnum : crDeltaNum (crTablesOf d) 1 d.eventTimeSize =
      survDeltaNum (survTablesOf d) d.eventTimeSize := by
    unfold crDeltaNum survDeltaNum
    rw [Finset.Icc_self, Finset.sum_singleton]
    refine Finset.sum_congr rfl fun k _ => ?_
    rw [(crParentIncl_one (crTablesOf d) k).1, (crParentIncl_one (crTablesOf d) k).2]
    rw [hCR, hLCR, hP, hL]
    push_cast
    ring
  have hden : crDeltaDen (crTablesOf d) 1 d.eventTimeSize =
      survDeltaDen (survTablesOf d) d.eventTimeSize := by
    unfold crDeltaDen survDeltaDen
    rw [Finset.Icc_self, Finset.sum_singleton]
    refine Finset.sum_congr rfl fun k _ => ?_
    rw [(crParentIncl_one (crTablesOf d) k).1, (crParentIncl_one (crTablesOf d) k).2]
    rw [hCR, hP, hL]
    by_cases hg : 2 ≤ (survTablesOf d).parentAtRisk k
    · rw [if_pos hg, if_pos hg]
      ring
    · rw [if_neg hg, if_neg hg]
  rw [hnum, hden]

theorem finalDelta_eq (num den : ℚ) :
    finalDelta num den =
      if Real.sqrt (den : ℝ) ≤ 1 / 10 ^ 9 ∧ |(num : ℝ)| ≤ 1 / 10 ^ 9 then 0
      else |(num : ℝ)| / Real.sqrt (den : ℝ) := by
  unfold finalDelta
  by_cases hd : Real.sqrt (den : ℝ) ≤ 1 / 10 ^ 9
  · rw [if_pos hd]
    by_cases hn : |(num : ℝ)| ≤ 1 / 10 ^ 9
    · rw [if_pos hn, if_pos ⟨hd, hn⟩]
    · rw [if_neg hn, if_neg (fun h => hn h.2)]
  · rw [if_neg hd, if_neg (fun h => hd h.1)]

/-- Claim C4: in both getCustomSplitStatisticSurvival and
getCustomSplitStatisticCompetingRisk, letting num be the absolute value of
the accumulated numerator and den the square root of the accumulated
denominator: if den and num are both at most 1e-9 the returned statistic is
exactly 0; in every other case (including den at most 1e-9 with num above
1e-9) the returned statistic is num/den. -/
theorem claim_C4 (d : SplitInput) :
    (getCustomSplitStatisticSurvival d =
      if Real.sqrt ((survDeltaDen (survTablesOf d) d.eventTimeSize : ℚ) : ℝ) ≤ 1 / 10 ^ 9 ∧
          |((survDeltaNum (survTablesOf d) d.eventTimeSize : ℚ) : ℝ)| ≤ 1 / 10 ^ 9 then 0
      else |((survDeltaNum (survTablesOf d) d.eventTimeSize : ℚ) : ℝ)| /
        Real.sqrt ((survDeltaDen (survTablesOf d) d.eventTimeSize : ℚ) : ℝ)) ∧
    (getCustomSplitStatisticCompetingRisk d =
      if Real.sqrt ((crDeltaDen (crTablesOf d) d.eventTypeSize d.eventTimeSize : ℚ) : ℝ) ≤
            1 / 10 ^ 9 ∧
          |((crDeltaNum (crTablesOf d) d.eventTypeSize d.eventTimeSize : ℚ) : ℝ)| ≤ 1 / 10 ^ 9 then 0
      else |((crDeltaNum (crTablesOf d) d.eventTypeSize d.eventTimeSize : ℚ) : ℝ)| /
        Real.sqrt ((crDeltaDen (crTablesOf d) d.eventTypeSize d.eventTimeSize : ℚ) : ℝ)) := by
  exact ⟨finalDelta_eq _ _, finalDelta_eq _ _⟩

/-- Claim C1: for the concrete input n=4, time=[1,2,3,4], event=[1,0,1,1],
membership=[LEFT,RIGHT,LEFT,RIGHT], eventTypeSize=1, eventTimeSize=3,
eventTime=[1,3,4], getCustomSplitStatisticSurvival builds (after the sweep
and suffix-sum) parent at-risk table [4,2,1], left at-risk table [2,1,0],
parent event table [1,1,1], left event table [1,1,0], and returns
the value abs 1.0 / sqrt 0.5 = sqrt 2, matching the hand computation to
within 1e-9. -/
theorem claim_C1 :
    ((survTablesOf exInput).parentAtRisk 1 = 4 ∧
      (survTablesOf exInput).parentAtRisk 2 = 2 ∧
      (survTablesOf exInput).parentAtRisk 3 = 1) ∧
    ((survTablesOf exInput).leftAtRisk 1 = 2 ∧
      (survTablesOf exInput).leftAtRisk 2 = 1 ∧
      (survTablesOf exInput).leftAtRisk 3 = 0) ∧
    ((survTablesOf exInput).parentEvent 1 = 1 ∧
      (survTablesOf exInput).parentEvent 2 = 1 ∧
      (survTablesOf exInput).parentEvent 3 = 1) ∧
    ((survTablesOf exInput).leftEvent 1 = 1 ∧
      (survTablesOf exInput).leftEvent 2 = 1 ∧
      (survTablesOf exInput).leftEvent 3 = 0) ∧
    getCustomSplitStatisticSurvival exInput = |(1 : ℝ)| / Real.sqrt (1 / 2) ∧
    getCustomSplitStatisticSurvival exInput = Real.sqrt 2 ∧
    |getCustomSplitStatisticSurvival exInput - Real.sqrt 2| ≤ 1 / 10 ^ 9 := by
  have hpa1 : (survTablesOf exInput).parentAtRisk 1 = 4 := by decide
  have hpa2 : (survTablesOf exInput).parentAtRisk 2 = 2 := by decide
  have hpa3 : (survTablesOf exInput).parentAtRisk 3 = 1 := by decide
  have hla1 : (survTablesOf exInput).leftAtRisk 1 = 2 := by decide
  have hla2 : (survTablesOf exInput).leftAtRisk 2 = 1 := by decide
  have hla3 : (survTablesOf exInput).leftAtRisk 3 = 0 := by decide
  have hpe1 : (survTablesOf exInput).parentEvent 1 = 1 := by decide
  have hpe2 : (survTablesOf exInput).parentEvent 2 = 1 := by decide
  have hpe3 : (survTablesOf exInput).parentEvent 3 = 1 := by decide
  have hle1 : (survTablesOf exInput).leftEvent 1 = 1 := by decide
  have hle2 : (survTablesOf exInput).leftEvent 2 = 1 := by decide
  have hle3 : (survTablesOf exInput).leftEvent 3 = 0 := by decide
  have hIcc : Finset.Icc (1 : ℕ) 3 = {1, 2, 3} := by decide
  have hnum : survDeltaNum (survTablesOf exInput) 3 = 1 := by
    unfold survDeltaNum
    rw [hIcc, Finset.sum_insert (by decide), Finset.sum_insert (by decide),
      Finset.sum_singleton]
    rw [hpa1, hpa2, hpa3, hla1, hla2, hla3, hpe1, hpe2, hpe3, hle1, hle2, hle3]
    norm_num
  have hden : survDeltaDen (survTablesOf exInput) 3 = 1 / 2 := by
    unfold survDeltaDen
    rw [hIcc, Finset.sum_insert (by decide), Finset.sum_insert (by decide),
      Finset.sum_singleton]
    rw [hpa1, hpa2, hpa3, hla1, hla2, hla3, hpe1, hpe2, hpe3]
    norm_num
  have hfinal : getCustomSplitStatisticSurvival exInput = finalDelta 1 (1 / 2) := by
    show finalDelta (survDeltaNum (survTablesOf exInput) exInput.eventTimeSize)
      (survDeltaDen (survTablesOf exInput) exInput.eventTimeSize) = _
    rw [show exInput.eventTimeSize = 3 from rfl, hnum, hden]
  have hcast : (((1 : ℚ) / 2 : ℚ) : ℝ) = 1 / 2 := by push_cast; ring
  have hgt : ¬ Real.sqrt (((1 : ℚ) / 2 : ℚ) : ℝ) ≤ 1 / 10 ^ 9 := by
    rw [hcast]
    push_neg
    have h0 : (0 : ℝ) ≤ 1 / 10 ^ 9 := by norm_num
    exact (Real.lt_sqrt h0).mpr (by norm_num)
  have hval : finalDelta 1 (1 / 2) = |(1 : ℝ)| / Real.sqrt (1 / 2) := by
    unfold finalDelta
    rw [if_neg hgt, hcast]
    norm_num
  have hsqrt2 : |(1 : ℝ)| / Real.sqrt (1 / 2) = Real.sqrt 2 := by
    rw [abs_one, show (1 : ℝ) / 2 = 2⁻¹ from by norm_num, Real.sqrt_inv, one_div, inv_inv]
  refine ⟨⟨hpa1, hpa2, hpa3⟩, ⟨hla1, hla2, hla3⟩, ⟨hpe1, hpe2, hpe3⟩,
    ⟨hle1, hle2, hle3⟩, ?_, ?_, ?_⟩
  · rw [hfinal, hval]
  · rw [hfinal, hval, hsqrt2]
  · rw [hfinal, hval, hsqrt2]
    norm_num

/-- Claim C7: for every node with both daughters non-empty and variance
nonzero in which every LEFT observation response equals mean and every
RIGHT observation response equals mean,
getCustomSplitStatisticMultivariateRegression returns exactly 0, as given
by the formula sumLeft^2/(leftSize*variance) + sumRght^2/(rghtSize*variance)
on the summed deviations from mean over each daughter. -/
theorem claim_C7 (n : ℕ) (membership : ℕ → Bool) (response : ℕ → ℚ) (mean variance : ℚ)
    (hvar : variance ≠ 0)
    (hlne : ((Finset.Icc 1 n).filter (fun i => membership i)).Nonempty)
    (hrne : ((Finset.Icc 1 n).filter (fun i => ¬ membership i)).Nonempty)
    (hleft : ∀ i ∈ (Finset.Icc 1 n).filter (fun i => membership i), response i = mean)
    (hrght : ∀ i ∈ (Finset.Icc 1 n).filter (fun i => ¬ membership i), response i = mean) :
    getCustomSplitStatisticMultivariateRegression n membership response mean variance = 0 := by
  unfold getCustomSplitStatisticMultivariateRegression
  rw [Finset.sum_eq_zero (fun i hi => by rw [hleft i hi]; ring)]
  rw [Finset.sum_eq_zero (fun i hi => by rw [hrght i hi]; ring)]
  norm_num

theorem nat_sum_sq_le_sq_sum (s : Finset ℕ) (f : ℕ → ℕ) :
    ∑ p ∈ s, f p ^ 2 ≤ (∑ p ∈ s, f p) ^ 2 := by
  calc ∑ p ∈ s, f p ^ 2 ≤ ∑ p ∈ s, f p * ∑ q ∈ s, f q := by
        refine Finset.sum_le_sum fun p hp => ?_
        rw [sq]
        exact Nat.mul_le_mul_left _ (Finset.single_le_sum (fun _ _ => Nat.zero_le _) hp)
    _ = (∑ p ∈ s, f p) ^ 2 := by rw [← Finset.sum_mul, sq]

/-- Claim C6: for every node with two classes in which all observations of
class 1 are LEFT and all observations of class 2 are RIGHT (both daughters
non-empty, maxLevel at least 2),
getCustomSplitStatisticMultivariateClassification returns exactly
leftSize + rghtSize, the maximum of the statistic over class assignments
with labels in [1, maxLevel] and those daughter sizes. -/
theorem claim_C6 (n : ℕ) (membership : ℕ → Bool) (response : ℕ → ℚ) (maxLevel : ℕ)
    (hmax : 2 ≤ maxLevel)
    (hlab1 : ∀ i ∈ Finset.Icc 1 n, membership i = true → response i = 1)
    (hlab2 : ∀ i ∈ Finset.Icc 1 n, membership i = false → response i = 2)
    (hlne : ((Finset.Icc 1 n).filter (fun i => membership i)).Nonempty)
    (hrne : ((Finset.Icc 1 n).filter (fun i => ¬ membership i)).Nonempty) :
    getCustomSplitStatisticMultivariateClassification n membership response maxLevel =
      (((Finset.Icc 1 n).filter (fun i => membership i)).card : ℚ) +
        (((Finset.Icc 1 n).filter (fun i => ¬ membership i)).card : ℚ) ∧
    (∀ response' : ℕ → ℚ,
      (∀ i ∈ Finset.Icc 1 n,
        1 ≤ qToUInt (response' i) ∧ qToUInt (response' i) ≤ maxLevel) →
      getCustomSplitStatisticMultivariateClassification n membership response' maxLevel ≤
        (((Finset.Icc 1 n).filter (fun i => membership i)).card : ℚ) +
          (((Finset.Icc 1 n).filter (fun i => ¬ membership i)).card : ℚ)) := by
  have hq1 : qToUInt 1 = 1 := by norm_num [qToUInt, truncInt]
  have hq2 : qToUInt 2 = 2 := by
    norm_num [qToUInt, truncInt]
    try decide
  have hLcard : ((Finset.Icc 1 n).filter (fun i => membership i)).card ≠ 0 :=
    Finset.card_ne_zero_of_mem hlne.choose_spec
  have hRcard : ((Finset.Icc 1 n).filter (fun i => ¬ membership i)).card ≠ 0 :=
    Finset.card_ne_zero_of_mem hrne.choose_spec
  constructor
  · unfold getCustomSplitStatisticMultivariateClassification
    have hcl : ∀ p ∈ Finset.Icc 1 maxLevel, p ≠ 1 →
        ((classProp n membership response true p : ℚ)) ^ 2 = 0 := by
      intro p _ hp
      have : classProp n membership response true p = 0 := by
        unfold classProp
        rw [Finset.card_eq_zero, Finset.filter_eq_empty_iff]
        rintro i hi ⟨hm, hqv⟩
        rw [hlab1 i hi hm, hq1] at hqv
        exact hp hqv.symm
      rw [this]
      norm_num
    have hcl1 : classProp n membership response true 1 =
        ((Finset.Icc 1 n).filter (fun i => membership i)).card := by
      unfold classProp
      congr 1
      apply Finset.filter_congr
      intro i hi
      constructor
      · rintro ⟨hm, _⟩; exact hm
      · intro hm; exact ⟨hm, by rw [hlab1 i hi hm, hq1]⟩
    have hcr : ∀ p ∈ Finset.Icc 1 maxLevel, p ≠ 2 →
        ((classProp n membership response false p : ℚ)) ^ 2 = 0 := by
      intro p _ hp
      have : classProp n membership response false p = 0 := by
        unfold classProp
        rw [Finset.card_eq_zero, Finset.filter_eq_empty_iff]
        rintro i hi ⟨hm, hqv⟩
        rw [hlab2 i hi hm, hq2] at hqv
        exact hp hqv.symm
      rw [this]
      norm_num
    have hcr2 : classProp n membership response false 2 =
        ((Finset.Icc 1 n).filter (fun i => ¬ membership i)).card := by
      unfold classProp
      congr 1
      apply Finset.filter_congr
      intro i hi
      constructor
      · rintro ⟨hm, _⟩
        simp only [Bool.not_eq_true]
        exact hm
      · intro hm
        have hm' : membership i = false := by
          simpa using hm
        exact ⟨hm', by rw [hlab2 i hi hm', hq2]⟩
    rw [Finset.sum_eq_single 1 hcl (fun h => absurd (by simp only [Finset.mem_Icc]; omega) h)]
    rw [Finset.sum_eq_single 2 hcr (fun h => absurd (by simp only [Finset.mem_Icc]; omega) h)]
    rw [hcl1, hcr2]
    rw [sq, sq, mul_div_assoc, mul_div_assoc, div_self (by exact_mod_cast hLcard),
      div_self (by exact_mod_cast hRcard), mul_one, mul_one]
  · intro response' hlab
    unfold getCustomSplitStatisticMultivariateClassification
    have key : ∀ side : Bool,
        (∑ p ∈ Finset.Icc 1 maxLevel,
            ((classProp n membership response' side p : ℚ)) ^ 2) /
          (((Finset.Icc 1 n).filter (fun i => membership i = side)).card : ℚ) ≤
        (((Finset.Icc 1 n).filter (fun i => membership i = side)).card : ℚ) := by
      intro side
      set L := ((Finset.Icc 1 n).filter (fun i => membership i = side)).card with hL
      have hfib : ∑ p ∈ Finset.Icc 1 maxLevel, classProp n membership response' side p = L := by
        have hH : ∀ x ∈ (Finset.Icc 1 n).filter (fun i => membership i = side),
            (fun i => qToUInt (response' i)) x ∈ Finset.Icc 1 maxLevel := by
          intro x hx
          have := hlab x (Finset.mem_of_mem_filter x hx)
          simp only [Finset.mem_Icc]
          omega
        rw [hL]
        rw [Finset.card_eq_sum_card_fiberwise hH]
        unfold classProp
        refine Finset.sum_congr rfl fun p _ => ?_
        congr 1
        rw [Finset.filter_filter]
      have hsq : ∑ p ∈ Finset.Icc 1 maxLevel,
          ((classProp n membership response' side p : ℚ)) ^ 2 ≤ (L : ℚ) ^ 2 := by
        have hnat := nat_sum_sq_le_sq_sum (Finset.Icc 1 maxLevel)
          (classProp n membership response' side)
        rw [hfib] at hnat
        exact_mod_cast hnat
      rcases Nat.eq_zero_or_pos L with hL0 | hLpos
      · rw [hL0]
        push_cast
        rw [div_zero]
      · have hLq : (0 : ℚ) < (L : ℚ) := by exact_mod_cast hLpos
        rw [div_le_iff₀ hLq]
        calc ∑ p ∈ Finset.Icc 1 maxLevel,
              ((classProp n membership response' side p : ℚ)) ^ 2 ≤ (L : ℚ) ^ 2 := hsq
          _ = (L : ℚ) * (L : ℚ) := pow_two (L : ℚ)
    have keyL := key true
    have keyR := key false
    have hsetL : ((Finset.Icc 1 n).filter (fun i => membership i = true)) =
        ((Finset.Icc 1 n).filter (fun i => membership i)) := by
      apply Finset.filter_congr
      intro i _
      simp
    have hsetR : ((Finset.Icc 1 n).filter (fun i => membership i = false)) =
        ((Finset.Icc 1 n).filter (fun i => ¬ membership i)) := by
      apply Finset.filter_congr
      intro i _
      simp
    rw [hsetL] at keyL
    rw [hsetR] at keyR
    exact add_le_add keyL keyR

/-- Claim C8: for every input in which dimX is nonpositive, or dimY is
nonpositive, or at least one daughter observation count is at most
dimX + dimY (dimX read from the feature matrix,
dimY = featureCount - dimX - 1), ccaSplitAbsoluteDifference returns exactly
0 without invoking any linear-algebra computation: the result is 0 for
every linear-algebra capability ccaCor. -/
theorem claim_C8 (ccaCor : (ℕ → ℕ → ℚ) → (ℕ → ℕ → ℚ) → ℕ → ℝ)
    (n : ℕ) (membership : ℕ → Bool) (feature : ℕ → ℕ → ℚ) (featureCount : ℕ)
    (h : ccaDimX feature featureCount ≤ 0 ∨ ccaDimY feature featureCount ≤ 0 ∨
      ((daughterObs n membership true).length : ℤ) ≤
        ccaDimX feature featureCount + ccaDimY feature featureCount ∨
      ((daughterObs n membership false).length : ℤ) ≤
        ccaDimX feature featureCount + ccaDimY feature featureCount) :
    ccaSplitAbsoluteDifference ccaCor n membership feature featureCount = 0 := by
  unfold ccaSplitAbsoluteDifference
  split_ifs with h1 h2
  · exfalso
    obtain ⟨h1a, h1b⟩ := h1
    obtain ⟨h2a, h2b⟩ := h2
    rcases h with hc | hc | hc | hc <;> omega
  · rfl
  · rfl

/-- Claim C9: in ccaSplitAbsoluteDifference, the block size dimX used to
partition the feature matrix into the X block (columns 1..dimX) and the Y
block (columns dimX+1..dimX+dimY) is the value encoded in the feature
matrix last column, and dimY is inferred as featureCount - dimX - 1; the
two column blocks are disjoint and the Y block ends exactly at column
featureCount - 1. -/
theorem claim_C9 (feature : ℕ → ℕ → ℚ) (featureCount : ℕ) :
    ccaDimX feature featureCount = truncInt (feature featureCount 1) ∧
    ccaDimY feature featureCount =
      (featureCount : ℤ) - ccaDimX feature featureCount - 1 ∧
    ccaXCols feature featureCount = Finset.Icc 1 (ccaDimX feature featureCount) ∧
    ccaYCols feature featureCount =
      Finset.Icc (ccaDimX feature featureCount + 1) ((featureCount : ℤ) - 1) ∧
    Disjoint (ccaXCols feature featureCount) (ccaYCols feature featureCount) := by
  refine ⟨rfl, rfl, rfl, ?_, ?_⟩
  · unfold ccaYCols
    congr 1
    unfold ccaDimY
    ring
  · rw [Finset.disjoint_left]
    intro x hx hy
    unfold ccaXCols at hx
    unfold ccaYCols at hy
    simp only [Finset.mem_Icc] at hx hy
    omega

/-- Claim C3: in getCustomSplitStatisticCompetingRisk, after the suffix-sum
step, for every cause j in [1, eventTypeSize] and every time index k in
[1, eventTimeSize], the inclusive at-risk counts satisfy
nodeParentInclusiveAtRisk[j][k] = nodeParentAtRisk[k] plus the sum, over
earlier times s < k and causes r distinct from j, of nodeParentEventCR[r][s],
and likewise for the left tables. -/
theorem claim_C3 (d : SplitInput) (j k : ℕ)
    (hj : j ∈ Finset.Icc 1 d.eventTypeSize) (hk : k ∈ Finset.Icc 1 d.eventTimeSize) :
    crParentIncl (crTablesOf d) d.eventTypeSize j k =
      (crTablesOf d).parentAtRisk k +
        ∑ s ∈ Finset.Icc 1 (k - 1), ∑ r ∈ Finset.Icc 1 d.eventTypeSize,
          (if j ≠ r then (crTablesOf d).parentEventCR r s else 0) ∧
    crLeftIncl (crTablesOf d) d.eventTypeSize j k =
      (crTablesOf d).leftAtRisk k +
        ∑ s ∈ Finset.Icc 1 (k - 1), ∑ r ∈ Finset.Icc 1 d.eventTypeSize,
          (if j ≠ r then (crTablesOf d).leftEventCR r s else 0) := by
  constructor
  · unfold crParentIncl
    exact crInclusive_eq_sum _ _ _ _ _
  · unfold crLeftIncl
    exact crInclusive_eq_sum _ _ _ _ _


/-- Witness for claim C2 at the concrete example input. -/
theorem claim_C2_witness :
    getCustomSplitStatisticCompetingRisk exInput = getCustomSplitStatisticSurvival exInput :=
  claim_C2 exInput rfl (by decide) (by decide) (by decide) (by decide)

/-- Witness for claim C3 at the concrete example input, cause 1, time 2. -/
theorem claim_C3_witness :
    crParentIncl (crTablesOf exInput) exInput.eventTypeSize 1 2 =
      (crTablesOf exInput).parentAtRisk 2 +
        ∑ s ∈ Finset.Icc 1 (2 - 1), ∑ r ∈ Finset.Icc 1 exInput.eventTypeSize,
          (if 1 ≠ r then (crTablesOf exInput).parentEventCR r s else 0) ∧
    crLeftIncl (crTablesOf exInput) exInput.eventTypeSize 1 2 =
      (crTablesOf exInput).leftAtRisk 2 +
        ∑ s ∈ Finset.Icc 1 (2 - 1), ∑ r ∈ Finset.Icc 1 exInput.eventTypeSize,
          (if 1 ≠ r then (crTablesOf exInput).leftEventCR r s else 0) :=
  claim_C3 exInput 1 2 (by decide) (by decide)

/-- Witness for claim C5 at the concrete example input. -/
theorem claim_C5_witness :
    (survTablesOf exInput).parentAtRisk 2 ≤ (survTablesOf exInput).parentAtRisk 1 ∧
    (survTablesOf exInput).leftAtRisk 1 ≤ (survTablesOf exInput).parentAtRisk 1 ∧
    0 ≤ (survTablesOf exInput).leftAtRisk 1 :=
  ⟨(claim_C5 exInput (by decide) (by decide)).1 1 (by decide),
    ((claim_C5 exInput (by decide) (by decide)).2 1 (by decide)).1,
    ((claim_C5 exInput (by decide) (by decide)).2 1 (by decide)).2⟩

/-- Witness for claim C6 on a perfectly separated 4-observation node. -/
theorem claim_C6_witness :
    getCustomSplitStatisticMultivariateClassification 4 exMemC exRespC 2 =
      (((Finset.Icc 1 4).filter (fun i => exMemC i)).card : ℚ) +
        (((Finset.Icc 1 4).filter (fun i => ¬ exMemC i)).card : ℚ) ∧
    getCustomSplitStatisticMultivariateClassification 4 exMemC exRespC 2 ≤
      (((Finset.Icc 1 4).filter (fun i => exMemC i)).card : ℚ) +
        (((Finset.Icc 1 4).filter (fun i => ¬ exMemC i)).card : ℚ) :=
  ⟨(claim_C6 4 exMemC exRespC 2 (by decide) (by decide) (by decide)
      (by decide) (by decide)).1,
    (claim_C6 4 exMemC exRespC 2 (by decide) (by decide) (by decide)
      (by decide) (by decide)).2 exRespC (by decide)⟩

/-- Witness for claim C7 on a 2-observation node with constant response. -/
theorem claim_C7_witness :
    getCustomSplitStatisticMultivariateRegression 2 (fun i => i == 1)
      (fun _ => 5) 5 1 = 0 :=
  claim_C7 2 (fun i => i == 1) (fun _ => 5) 5 1 (by norm_num) (by decide) (by decide)
    (by decide) (by decide)

/-- Witness for claim C8 with a zero feature matrix, hence dimX = 0. -/
theorem claim_C8_witness :
    ccaSplitAbsoluteDifference (fun _ _ _ => 0) 2 (fun i => i == 1)
      (fun _ _ => 0) 1 = 0 :=
  claim_C8 (fun _ _ _ => 0) 2 (fun i => i == 1) (fun _ _ => 0) 1
    (Or.inl (by decide))

/-- Witness for claim C10 at the concrete example input. -/
theorem claim_C10_witness :
    1 ≤ (survTablesOf exInput).parentAtRisk 1 ∧
    1 ≤ (crTablesOf exInput).parentAtRisk 1 ∧
    (crTablesOf exInput).parentAtRisk 1 ≤
      crParentIncl (crTablesOf exInput) exInput.eventTypeSize 1 1 :=
  ⟨(claim_C10 exInput (by decide) (by decide) (by decide)).1 1 (by decide),
    ((claim_C10 exInput (by decide) (by decide) (by decide)).2 1 (by decide) 1 (by decide)).1,
    ((claim_C10 exInput (by decide) (by decide) (by decide)).2 1 (by decide) 1 (by decide)).2⟩
